import Mathlib

/-!
Shallow embedding of the AlphaFactory factor-investing backtester
(src/app.py, the strategy-engine portion: lines 30 to 76).

Data model.  A price panel or return panel is a `List (List ℚ)`: the
outer list is the ascending sequence of trading dates, each inner row
the per-symbol values in the fixed column order of the downloaded
DataFrame.  Dates are identified with positions in the price panel.
pandas keeps the original date labels through `pct_change().dropna()`,
so row `i` of the returns panel carries price date `i + 1`; the
rolling-score stage records the label of each surviving row explicitly.
Prices are modelled as exact rationals (the source computes in floating
point); the sample standard deviation, which is irrational, lands in `ℝ`.
Division by zero follows the Lean junk-value convention `x / 0 = 0`;
it is only reachable where the source would produce NaN/inf, and every
theorem below either avoids those inputs by hypothesis or documents them.
-/

namespace AlphaFactory

/-- Strategy choice offered by the sidebar selectbox (app.py line 19). -/
inductive Strategy
  | Momentum
  | LowVolatility

/-- Arithmetic mean, pandas `.mean()`.  On the empty list this is the
junk value `0 / 0 = 0` (pandas would give NaN; the app never feeds that
case onward under the hypotheses used below). -/
def mean (xs : List ℚ) : ℚ := xs.sum / (xs.length : ℚ)

/-- Sample variance with `ddof = 1`, the square of pandas `.std()`.
For a singleton list this is the junk value `0 / 0 = 0` (pandas: NaN). -/
def sampleVar (xs : List ℚ) : ℚ :=
  (xs.map (fun x => (x - mean xs) ^ 2)).sum / ((xs.length : ℚ) - 1)

/-- One row of `data.pct_change()` (app.py line 37): per column,
`cur / prev - 1`. -/
def returnRow (prev cur : List ℚ) : List ℚ :=
  List.zipWith (fun a b => b / a - 1) prev cur

/-- App.py line 37, `daily_returns = data.pct_change().dropna()`.
`pct_change` makes the first row NaN; with the all-positive prices of
the model that is the only NaN row, so `dropna` removes exactly the
first date and row `i` of the result carries price date `i + 1`. -/
def pct_change : List (List ℚ) → List (List ℚ)
  | [] => []
  | [_] => []
  | p :: q :: rest => returnRow p q :: pct_change (q :: rest)

/-- Column `j` of a block of rows (0 when a row is too short, which is
never reached on the uniform-width panels used below). -/
def col (rows : List (List ℚ)) (j : Nat) : List ℚ := rows.map fun r => r.getD j 0

/-- The trailing `w` rows ending at row `i` inclusive: the pandas
`rolling(w)` window anchored at position `i`. -/
def windowSlice (w : Nat) (rows : List (List ℚ)) (i : Nat) : List (List ℚ) :=
  (rows.take (i + 1)).drop (i + 1 - w)

/-- App.py lines 40 to 46: `rolling(window)` statistic followed by
`dropna()`, keeping the original date label of every row whose window
is complete.  Entry `(d, row)`: `d` is the position of the row in
`rows` (its date label on the returns axis), `row` the per-column
statistic of the trailing `w` rows.  The rows with `i + 1 < w` are
exactly the NaN rows removed by `scores.dropna()`. -/
def rollingIdx {β : Type} (stat : List ℚ → β) (w : Nat) (rows : List (List ℚ)) :
    List (Nat × List β) :=
  (List.range rows.length).filterMap fun i =>
    if w ≤ i + 1 then
      some (i, (List.range (rows.headD []).length).map fun j => stat (col (windowSlice w rows i) j))
    else none

/-- Ranking order used by pandas `Series.nlargest` with the default
`keep=first` (app.py line 50): positions sorted by descending value,
ties broken by first occurrence (ascending position). -/
def nlargestRel {β : Type} [LinearOrder β] [Inhabited β] (row : List β) (a b : Nat) : Prop :=
  row.getD b default < row.getD a default ∨
    (row.getD a default = row.getD b default ∧ a ≤ b)

instance nlargestRelDecidable {β : Type} [LinearOrder β] [Inhabited β] (row : List β) :
    DecidableRel (nlargestRel row) := fun a b =>
  inferInstanceAs (Decidable (row.getD b default < row.getD a default ∨
    (row.getD a default = row.getD b default ∧ a ≤ b)))

/-- App.py line 50, `scores.loc[date].nlargest(top_n).index`, as
positions into the score row.  `nlargest` never raises: when `n`
exceeds the row length it simply returns every position. -/
def nlargest {β : Type} [LinearOrder β] [Inhabited β] (row : List β) (n : Nat) : List Nat :=
  (List.insertionSort (nlargestRel row) (List.range row.length)).take n

/-- Code-side selectTopN: the ranked top `n` positions of the score row
at date `d` (spec operation `selectTopN(scores, date, n)` as the code
implements it).  Total; there is no `ConfigurationError` check. -/
def selectTopN (scores : List (List ℚ)) (d n : Nat) : List Nat :=
  nlargest (scores.getD d []) n

/-- Running-product accumulator for pandas `Series.cumprod`. -/
def cumprodAux (acc : ℚ) : List ℚ → List ℚ
  | [] => []
  | x :: xs => (acc * x) :: cumprodAux (acc * x) xs

/-- pandas `Series.cumprod` (app.py lines 55 and 72). -/
def cumprod (l : List ℚ) : List ℚ := cumprodAux 1 l

/-- App.py lines 30 to 62 with the local variable `window` generalized
to a parameter and the rolling statistic abstracted (`mean` for
Momentum, negated rolling std for LowVolatility).  Returns the pair
`(portfolio_returns, cumulative_returns)` when the run reaches the
metrics of lines 64 to 67, and `none` on the failure paths: `st.stop`
on empty data (line 35) and the exception raised on an empty series
(plotting/`iloc[-1]`), caught by the blanket `except` of line 110. -/
def pipelineWith {β : Type} [LinearOrder β] [Inhabited β] (stat : List ℚ → β) (window : Nat)
    (prices : List (List ℚ)) (top_n : Nat) : Option (List ℚ × List ℚ) :=
  if prices.isEmpty then none
  else
    let daily_returns := pct_change prices
    let scores := rollingIdx stat window daily_returns
    let portfolio_returns := scores.map fun s =>
      mean ((nlargest s.2 top_n).map fun j => (daily_returns.getD s.1 []).getD j 0)
    if portfolio_returns.isEmpty then none
    else some (portfolio_returns, cumprod (portfolio_returns.map fun r => 1 + r))

/-- App.py line 44, `-daily_returns.rolling(window).std()`: the rolling
statistic of the LowVolatility branch, the negated sample standard
deviation (pandas default `ddof = 1`).  For a window of size 1 pandas
yields NaN (the row would be dropped) while this model yields `-0`;
the app fixes the window at 30 and the theorems that touch values of
this statistic assume a window of at least 2. -/
noncomputable def lowVolStat (xs : List ℚ) : ℝ := -Real.sqrt ((sampleVar xs : ℚ) : ℝ)

/-- The engine at an arbitrary lookback window: the strategy dispatch
of app.py lines 41 to 44 over the shared pipeline. -/
noncomputable def pipelineFor (strategy : Strategy) (window : Nat)
    (prices : List (List ℚ)) (top_n : Nat) : Option (List ℚ × List ℚ) :=
  match strategy with
  | .Momentum => pipelineWith mean window prices top_n
  | .LowVolatility => pipelineWith lowVolStat window prices top_n

/-- The app exactly as written: line 40 pins `window = 30` inside the
run; no window parameter exists at this boundary (the inputs are the
prices, the strategy kind and `top_n` alone). -/
noncomputable def runApp (prices : List (List ℚ)) (strategy : Strategy) (top_n : Nat) :
    Option (List ℚ × List ℚ) :=
  let window := 30
  match strategy with
  | .Momentum => pipelineWith mean window prices top_n
  | .LowVolatility => pipelineWith lowVolStat window prices top_n

/-- The performance summary rendered by app.py lines 66 to 67. -/
structure PerformanceSummary where
  annualizedSharpe : ℝ
  totalReturn : ℚ

/-- pandas `.std()` (`ddof = 1`), the square root of `sampleVar`. -/
noncomputable def std (xs : List ℚ) : ℝ := Real.sqrt ((sampleVar xs : ℚ) : ℝ)

/-- App.py line 64: `portfolio_returns.mean() / portfolio_returns.std() * np.sqrt(252)`.
Computed unconditionally; when the standard deviation is zero the
source produces a float infinity or NaN, this model the junk value 0. -/
noncomputable def sharpe (rs : List ℚ) : ℝ := ((mean rs : ℚ) : ℝ) / std rs * Real.sqrt 252

/-- App.py line 65: `cumulative_returns.iloc[-1] - 1`.  `iloc[-1]` on an
empty series raises; the pipeline already returned `none` in that case,
so the `getLastD` default is unreachable from a completed run. -/
def total_return (cs : List ℚ) : ℚ := cs.getLastD 0 - 1

/-- App.py lines 64 to 65 bundled: the summary the app renders.
It is computed unconditionally: the source has no degeneracy check. -/
noncomputable def summarize (rs cs : List ℚ) : PerformanceSummary :=
  ⟨sharpe rs, total_return cs⟩

/-- App.py line 71 as a date-labelled series: benchmark daily returns,
label `i` being the price date, value `bench[i] / bench[i-1] - 1`
(`pct_change().dropna()` keeps the original labels `1 .. len - 1`). -/
def benchReturns (bench : List ℚ) : List (Nat × ℚ) :=
  (List.range' 1 (bench.length - 1)).map fun i =>
    (i, bench.getD i 0 / bench.getD (i - 1) 0 - 1)

/-- Label-preserving cumulative product of `1 + value`, the pandas
`(1 + series).cumprod()` on a labelled series. -/
def cumprodPairs (acc : ℚ) : List (Nat × ℚ) → List (Nat × ℚ)
  | [] => []
  | (d, r) :: rest => (d, acc * (1 + r)) :: cumprodPairs (acc * (1 + r)) rest

/-- App.py line 72: `benchmark_cum = (1 + benchmark_returns).cumprod()`,
computed over the FULL downloaded benchmark history, before any
restriction to the strategy's dates. -/
def benchCum (bench : List ℚ) : List (Nat × ℚ) := cumprodPairs 1 (benchReturns bench)

/-- pandas `.loc[d]` on a labelled series; 0 on a missing label (never
reached under the hypotheses used below). -/
def locD (s : List (Nat × ℚ)) (d : Nat) : ℚ := (List.lookup d s).getD 0

/-- App.py lines 74 and 76: restrict the pre-computed cumulative series
to the strategy index (`benchmark_cum.loc[portfolio_returns.index]`)
and take its last entry minus 1 (`benchmark_cum.iloc[-1] - 1`). -/
def benchmark_total (bench : List ℚ) (idx : List Nat) : ℚ :=
  (idx.map fun d => locD (benchCum bench) d).getLastD 0 - 1

/-- The date labels of the strategy's portfolio return series on the
shared price-date axis: the scores keep the label of their returns row,
and returns row `i` is price date `i + 1`. -/
def portfolioIdx {β : Type} [LinearOrder β] [Inhabited β] (stat : List ℚ → β) (window : Nat)
    (prices : List (List ℚ)) : List Nat :=
  ((rollingIdx stat window (pct_change prices)).map Prod.fst).map fun i => i + 1

/-- Error taxonomy of spec section 7.  Claim-side only: the source
defines no error types and raises none of these. -/
inductive EngineError
  | noData
  | insufficientData
  | configuration
  | degenerateSeries

/-- Modelled from the claim wording of C2 and spec section 4.1
(`selectTopN` fails with `ConfigurationError` if `n` exceeds the number
of symbols with a defined score on that date; in this model every score
of a row is defined).  Comparator for the refinement claim; the code
authority is `selectTopN` above. -/
def selectTopNSpec (scores : List (List ℚ)) (d n : Nat) : Except EngineError (List Nat) :=
  if (scores.getD d []).length < n then .error .configuration
  else .ok (selectTopN scores d n)

/-- Modelled from the claim wording of C3 and spec section 4.1
(`summarize` fails with `DegenerateSeriesError` if the standard
deviation is zero or the series has fewer than 2 points; zero standard
deviation is rendered decidably as zero sample variance).  Comparator
for the refinement claim; the code authority is `summarize` above. -/
noncomputable def summarizeSpec (rs cs : List ℚ) : Except EngineError PerformanceSummary :=
  if sampleVar rs = 0 ∨ rs.length < 2 then .error .degenerateSeries
  else .ok (summarize rs cs)

/-- Modelled from the claim wording of C1: the benchmark cumulative
growth as the running product of `1 + benchmark return` taken ONLY over
the dates of the strategy's portfolio index, whose last value minus 1
would be the benchmark total return.  Comparator for the refinement
claim; the code authority is `benchmark_total` above. -/
def benchTotalSpec (bench : List ℚ) (idx : List Nat) : ℚ :=
  ((idx.map fun d => 1 + locD (benchReturns bench) d).prod) - 1

/-- A 32-date, one-symbol price panel of constant price 1. -/
def constPrices : List (List ℚ) := List.replicate 32 [1]

/-- A 32-date, one-symbol price panel that doubles every day; all of
its daily returns are identical (equal to 1), a zero-variance series. -/
def doublingPrices : List (List ℚ) := (List.range 32).map fun i => [(2 : ℚ) ^ i]

/-- A 32-date benchmark price series that doubles on the first step and
stays flat afterwards: all its return lies before the strategy's scored
window. -/
def jumpBench : List ℚ := 1 :: List.replicate 31 2

set_option maxRecDepth 100000

/-! Helper lemmas about the embedded operations. -/

theorem pct_change_length (ps : List (List ℚ)) : (pct_change ps).length = ps.length - 1 := by
  induction ps with
  | nil => rfl
  | cons p tail ih =>
    cases tail with
    | nil => rfl
    | cons q rest => simp only [pct_change, List.length_cons, ih]; omega

theorem pct_change_getD (ps : List (List ℚ)) (i : Nat) (h : i + 1 < ps.length) :
    (pct_change ps).getD i [] = returnRow (ps.getD i []) (ps.getD (i + 1) []) := by
  induction ps generalizing i with
  | nil => simp at h
  | cons p tail ih =>
    cases tail with
    | nil => simp at h
    | cons q rest =>
      cases i with
      | zero => rfl
      | succ k =>
        have h' : k + 1 < (q :: rest).length := by
          simp only [List.length_cons] at h ⊢; omega
        simpa [pct_change, List.getD_cons_succ] using ih k h'

theorem zipWith_getD (f : ℚ → ℚ → ℚ) (as bs : List ℚ) (j : Nat)
    (ha : j < as.length) (hb : j < bs.length) :
    (List.zipWith f as bs).getD j 0 = f (as.getD j 0) (bs.getD j 0) := by
  induction as generalizing bs j with
  | nil => simp at ha
  | cons a as ih =>
    cases bs with
    | nil => simp at hb
    | cons b bs =>
      cases j with
      | zero => rfl
      | succ k =>
        simp only [List.zipWith_cons_cons, List.getD_cons_succ]
        exact ih bs k (by simpa using ha) (by simpa using hb)

theorem getD_row_length (prices : List (List ℚ)) (k i : Nat) (hw : ∀ r ∈ prices, r.length = k)
    (hi : i < prices.length) : (prices.getD i []).length = k := by
  rw [List.getD_eq_getElem _ _ hi]
  exact hw _ (List.getElem_mem hi)

theorem getD_entry_pos (prices : List (List ℚ)) (i j : Nat)
    (hpos : ∀ r ∈ prices, ∀ x ∈ r, 0 < x) (hi : i < prices.length)
    (hj : j < (prices.getD i []).length) : 0 < (prices.getD i []).getD j 0 := by
  have hrow : prices.getD i [] ∈ prices := by
    rw [List.getD_eq_getElem _ _ hi]
    exact List.getElem_mem hi
  have hx : (prices.getD i []).getD j 0 ∈ prices.getD i [] := by
    rw [List.getD_eq_getElem _ _ hj]
    exact List.getElem_mem hj
  exact hpos _ hrow _ hx

/-! Claim theorems. -/

/-- Claim C5: on a uniform-width price panel with at least two dates and
all-positive prices, `pct_change` (the code's computeReturns) yields
exactly `N - 1` dates, row `i` of the result standing for the price date
`i + 1`, and every entry equals `price[d] / price[d-1] - 1` exactly, with
the exact round trip `price[d-1] * (1 + return[d]) = price[d]`. -/
theorem pct_change_shape_values (prices : List (List ℚ)) (k : Nat)
    (hn : 2 ≤ prices.length)
    (hw : ∀ r ∈ prices, r.length = k)
    (hpos : ∀ r ∈ prices, ∀ x ∈ r, 0 < x) :
    (pct_change prices).length = prices.length - 1 ∧
    ∀ i j, i + 1 < prices.length → j < k →
      ((pct_change prices).getD i []).getD j 0 =
        (prices.getD (i + 1) []).getD j 0 / (prices.getD i []).getD j 0 - 1 ∧
      (prices.getD i []).getD j 0 * (1 + ((pct_change prices).getD i []).getD j 0) =
        (prices.getD (i + 1) []).getD j 0 := by
  refine ⟨pct_change_length prices, ?_⟩
  intro i j hi hj
  have hi0 : i < prices.length := by omega
  have hi1 : i + 1 < prices.length := hi
  have l1 : (prices.getD i []).length = k := getD_row_length prices k i hw hi0
  have l2 : (prices.getD (i + 1) []).length = k := getD_row_length prices k (i + 1) hw hi1
  have hv : ((pct_change prices).getD i []).getD j 0 =
      (prices.getD (i + 1) []).getD j 0 / (prices.getD i []).getD j 0 - 1 := by
    rw [pct_change_getD prices i hi]
    unfold returnRow
    rw [zipWith_getD _ _ _ j (by omega) (by omega)]
  refine ⟨hv, ?_⟩
  have hp : 0 < (prices.getD i []).getD j 0 := getD_entry_pos prices i j hpos hi0 (by omega)
  have hne : (prices.getD i []).getD j 0 ≠ 0 := ne_of_gt hp
  rw [hv]
  have h1 : 1 + ((prices.getD (i + 1) []).getD j 0 / (prices.getD i []).getD j 0 - 1) =
      (prices.getD (i + 1) []).getD j 0 / (prices.getD i []).getD j 0 := by ring
  rw [h1, mul_comm, div_mul_cancel₀ _ hne]

/-- Witness for C5 at the concrete two-date one-symbol panel [[100], [110]]. -/
theorem pct_change_shape_values_witness :
    (pct_change [[(100 : ℚ)], [110]]).length = [[(100 : ℚ)], [110]].length - 1 ∧
    ∀ i j, i + 1 < [[(100 : ℚ)], [110]].length → j < 1 →
      ((pct_change [[(100 : ℚ)], [110]]).getD i []).getD j 0 =
        ([[(100 : ℚ)], [110]].getD (i + 1) []).getD j 0 /
          ([[(100 : ℚ)], [110]].getD i []).getD j 0 - 1 ∧
      ([[(100 : ℚ)], [110]].getD i []).getD j 0 *
          (1 + ((pct_change [[(100 : ℚ)], [110]]).getD i []).getD j 0) =
        ([[(100 : ℚ)], [110]].getD (i + 1) []).getD j 0 :=
  pct_change_shape_values [[(100 : ℚ)], [110]] 1 (by decide) (by decide)
    (by with_unfolding_all decide)

/-- Claim C8: the spec's worked scenario.  Price panel with symbol
columns AAPL (index 0) and MSFT (index 1), AAPL = [100, 110, 121],
MSFT = [50, 50, 55], window 1, top 1, Momentum (with a window of 1 the
rolling mean of returns is the return itself, so the pipeline at window 1
realizes the scenario; the `window` of the app itself is pinned at 30,
see C10).  Returns are AAPL [1/10, 1/10], MSFT [0, 1/10]; on the second
scored date the scores tie and `nlargest` picks AAPL (column 0) by
first-occurrence order; the portfolio returns are [1/10, 1/10],
the cumulative series [11/10, 121/100], and the total return 21/100. -/
theorem momentum_scenario :
    pct_change [[100, 50], [110, 50], [121, 55]] = [[1/10, 0], [1/10, 1/10]] ∧
    nlargest [(1 : ℚ)/10, 1/10] 1 = [0] ∧
    pipelineWith mean 1 [[100, 50], [110, 50], [121, 55]] 1 =
      some ([1/10, 1/10], [11/10, 121/100]) ∧
    total_return [11/10, 121/100] = 21/100 := by
  with_unfolding_all decide

theorem cumprodAux_length (acc : ℚ) (l : List ℚ) : (cumprodAux acc l).length = l.length := by
  induction l generalizing acc with
  | nil => rfl
  | cons x xs ih => simp only [cumprodAux, List.length_cons, ih]

theorem cumprodAux_getD_succ :
    ∀ (l : List ℚ) (acc : ℚ) (i : Nat), i + 1 < l.length →
      (cumprodAux acc l).getD (i + 1) 0 = (cumprodAux acc l).getD i 0 * l.getD (i + 1) 0 := by
  intro l
  induction l with
  | nil => intro acc i h; simp at h
  | cons x xs ih =>
    intro acc i h
    cases i with
    | zero =>
      cases xs with
      | nil => simp at h
      | cons y ys => simp [cumprodAux]
    | succ k =>
      simp only [cumprodAux, List.getD_cons_succ]
      exact ih (acc * x) k (by simpa using h)

theorem getD_map_one_add (rs : List ℚ) (i : Nat) (h : i < rs.length) :
    (rs.map fun r => 1 + r).getD i 0 = 1 + rs.getD i 0 := by
  rw [List.getD_eq_getElem _ _ (by simpa using h), List.getD_eq_getElem _ _ h, List.getElem_map]

/-- Claim C9: `cumprod (1 + r)` (the code's cumulativeGrowth, app.py
line 55) is aligned one-to-one with the portfolio return series, its
first value is `1 + r[0]`, and `cumulative[d] = cumulative[d-1] *
(1 + portfolioReturn[d])` for every later date. -/
theorem cumulative_growth (rs : List ℚ) (h : rs ≠ []) :
    (cumprod (rs.map fun r => 1 + r)).length = rs.length ∧
    (cumprod (rs.map fun r => 1 + r)).getD 0 0 = 1 + rs.getD 0 0 ∧
    ∀ i, i + 1 < rs.length →
      (cumprod (rs.map fun r => 1 + r)).getD (i + 1) 0 =
        (cumprod (rs.map fun r => 1 + r)).getD i 0 * (1 + rs.getD (i + 1) 0) := by
  refine ⟨?_, ?_, ?_⟩
  · unfold cumprod
    rw [cumprodAux_length, List.length_map]
  · cases rs with
    | nil => exact absurd rfl h
    | cons r rest => simp [cumprod, cumprodAux]
  · intro i hi
    unfold cumprod
    rw [cumprodAux_getD_succ _ 1 i (by simpa using hi), getD_map_one_add rs (i + 1) hi]

/-- Witness for C9 at the concrete series [1/10, 1/10]. -/
theorem cumulative_growth_witness :
    (cumprod ([(1 : ℚ)/10, 1/10].map fun r => 1 + r)).length = [(1 : ℚ)/10, 1/10].length ∧
    (cumprod ([(1 : ℚ)/10, 1/10].map fun r => 1 + r)).getD 0 0 = 1 + [(1 : ℚ)/10, 1/10].getD 0 0 ∧
    ∀ i, i + 1 < [(1 : ℚ)/10, 1/10].length →
      (cumprod ([(1 : ℚ)/10, 1/10].map fun r => 1 + r)).getD (i + 1) 0 =
        (cumprod ([(1 : ℚ)/10, 1/10].map fun r => 1 + r)).getD i 0 *
          (1 + [(1 : ℚ)/10, 1/10].getD (i + 1) 0) :=
  cumulative_growth [(1 : ℚ)/10, 1/10] (by decide)

theorem filterMap_range_window {β : Type} (w n : Nat) (f : Nat → β) :
    (List.range n).filterMap (fun i => if w ≤ i + 1 then some (f i) else none) =
      ((List.range n).drop (w - 1)).map f := by
  induction n with
  | zero => simp
  | succ m ih =>
    rw [List.range_succ, List.filterMap_append, ih]
    by_cases hm : w - 1 ≤ m
    · rw [List.drop_append_of_le_length (by simpa using hm), List.map_append]
      have hc : w ≤ m + 1 := by omega
      simp [hc]
    · have hc : ¬ w ≤ m + 1 := by omega
      have e1 : List.drop (w - 1) (List.range m ++ [m]) = [] :=
        List.drop_eq_nil_of_le (by simp; omega)
      have e2 : List.drop (w - 1) (List.range m) = [] :=
        List.drop_eq_nil_of_le (by simp; omega)
      rw [e1, e2]
      simp [hc]

theorem rollingIdx_eq {β : Type} (stat : List ℚ → β) (w : Nat) (rows : List (List ℚ)) :
    rollingIdx stat w rows =
      ((List.range rows.length).drop (w - 1)).map fun i =>
        (i, (List.range (rows.headD []).length).map fun j => stat (col (windowSlice w rows i) j)) := by
  unfold rollingIdx
  exact filterMap_range_window w rows.length _

theorem rollingIdx_map_fst {β : Type} (stat : List ℚ → β) (w : Nat) (rows : List (List ℚ)) :
    (rollingIdx stat w rows).map Prod.fst = (List.range rows.length).drop (w - 1) := by
  rw [rollingIdx_eq, List.map_map]
  have hcomp : (Prod.fst ∘ fun i : Nat =>
      (i, (List.range (rows.headD []).length).map fun j => stat (col (windowSlice w rows i) j))) =
      fun i : Nat => i := rfl
  rw [hcomp, List.map_id']

theorem rollingIdx_length {β : Type} (stat : List ℚ → β) (w : Nat) (rows : List (List ℚ)) :
    (rollingIdx stat w rows).length = rows.length - (w - 1) := by
  have h := congrArg List.length (rollingIdx_map_fst stat w rows)
  simpa using h

theorem mem_rollingIdx {β : Type} {stat : List ℚ → β} {w : Nat} {rows : List (List ℚ)}
    {d : Nat} {row : List β} (h : (d, row) ∈ rollingIdx stat w rows) :
    w ≤ d + 1 ∧ d < rows.length ∧
      row = (List.range (rows.headD []).length).map fun j => stat (col (windowSlice w rows d) j) := by
  unfold rollingIdx at h
  rcases List.mem_filterMap.mp h with ⟨i, hi, hif⟩
  by_cases hw : w ≤ i + 1
  · rw [if_pos hw] at hif
    simp only [Option.some.injEq, Prod.mk.injEq] at hif
    obtain ⟨rfl, hrow⟩ := hif
    exact ⟨hw, List.mem_range.mp hi, hrow.symm⟩
  · rw [if_neg hw] at hif
    cases hif

theorem windowSlice_eq_drop_take (w : Nat) (rows : List (List ℚ)) (i : Nat) (h : w ≤ i + 1) :
    windowSlice w rows i = (rows.drop (i + 1 - w)).take w := by
  unfold windowSlice
  rw [List.drop_take]
  congr 1
  omega

theorem rollingIdx_value {β : Type} (z : β) (stat : List ℚ → β) (w : Nat)
    (rets : List (List ℚ)) (k : Nat) (hk : ∀ r ∈ rets, r.length = k)
    {d : Nat} {row : List β} (h : (d, row) ∈ rollingIdx stat w rets)
    (j : Nat) (hj : j < k) :
    row.getD j z = stat (((rets.drop (d + 1 - w)).take w).map fun r => r.getD j 0) := by
  obtain ⟨hw, hd, hrow⟩ := mem_rollingIdx h
  have hne : rets ≠ [] := by
    intro hnil
    rw [hnil] at hd
    simp at hd
  have hhead : (rets.headD []).length = k := by
    cases rets with
    | nil => exact absurd rfl hne
    | cons r rest => exact hk r (by simp)
  rw [hrow]
  have hlen : j < ((List.range (rets.headD []).length).map fun j =>
      stat (col (windowSlice w rets d) j)).length := by
    rw [List.length_map, List.length_range, hhead]
    exact hj
  rw [List.getD_eq_getElem _ _ hlen, List.getElem_map, List.getElem_range,
    windowSlice_eq_drop_take w rets d hw]
  rfl

/-- Claim C6: on a fully populated returns panel of width `k` and any
window `w ≥ 1`, computeScores (the rolling stage, app.py lines 40 to 46)
drops exactly the first `w - 1` dates under both strategies: the labels
of the surviving rows are precisely the return dates from position
`w - 1` on, in order.  On every surviving date `d`, the Momentum score
of symbol `j` is the mean of the trailing `w` returns ending at `d`
inclusive, and, for `w ≥ 2`, the LowVolatility score is the negated
sample standard deviation of those `w` returns (for `w = 1` the sample
standard deviation is undefined: pandas yields NaN and drops every row,
which this model does not reproduce; the app always uses `w = 30`). -/
theorem computeScores_shape_values (w : Nat) (rets : List (List ℚ)) (k : Nat)
    (hw : 1 ≤ w) (hk : ∀ r ∈ rets, r.length = k) :
    ((rollingIdx mean w rets).map Prod.fst = (List.range rets.length).drop (w - 1)) ∧
    ((rollingIdx mean w rets).length = rets.length - (w - 1)) ∧
    (∀ d row, (d, row) ∈ rollingIdx mean w rets → ∀ j, j < k →
      row.getD j 0 = mean (((rets.drop (d + 1 - w)).take w).map fun r => r.getD j 0)) ∧
    ((rollingIdx lowVolStat w rets).map Prod.fst = (List.range rets.length).drop (w - 1)) ∧
    ((rollingIdx lowVolStat w rets).length = rets.length - (w - 1)) ∧
    (2 ≤ w → ∀ d row, (d, row) ∈ rollingIdx lowVolStat w rets → ∀ j, j < k →
      row.getD j 0 =
        -Real.sqrt ((sampleVar (((rets.drop (d + 1 - w)).take w).map fun r => r.getD j 0) : ℚ) : ℝ)) := by
  refine ⟨rollingIdx_map_fst mean w rets, rollingIdx_length mean w rets, ?_,
    rollingIdx_map_fst lowVolStat w rets, rollingIdx_length lowVolStat w rets, ?_⟩
  · intro d row hmem j hj
    exact rollingIdx_value 0 mean w rets k hk hmem j hj
  · intro _ d row hmem j hj
    exact rollingIdx_value 0 lowVolStat w rets k hk hmem j hj

/-- Witness for C6 at window 2 over the one-symbol returns panel [[1], [3]]. -/
theorem computeScores_shape_values_witness :
    ((rollingIdx mean 2 [[(1 : ℚ)], [3]]).map Prod.fst =
      (List.range [[(1 : ℚ)], [3]].length).drop 1) ∧
    ((rollingIdx mean 2 [[(1 : ℚ)], [3]]).length = [[(1 : ℚ)], [3]].length - 1) ∧
    (∀ d row, (d, row) ∈ rollingIdx mean 2 [[(1 : ℚ)], [3]] → ∀ j, j < 1 →
      row.getD j 0 =
        mean ((([[(1 : ℚ)], [3]].drop (d + 1 - 2)).take 2).map fun r => r.getD j 0)) ∧
    ((rollingIdx lowVolStat 2 [[(1 : ℚ)], [3]]).map Prod.fst =
      (List.range [[(1 : ℚ)], [3]].length).drop 1) ∧
    ((rollingIdx lowVolStat 2 [[(1 : ℚ)], [3]]).length = [[(1 : ℚ)], [3]].length - 1) ∧
    (2 ≤ 2 → ∀ d row, (d, row) ∈ rollingIdx lowVolStat 2 [[(1 : ℚ)], [3]] → ∀ j, j < 1 →
      row.getD j 0 =
        -Real.sqrt ((sampleVar ((([[(1 : ℚ)], [3]].drop (d + 1 - 2)).take 2).map
          fun r => r.getD j 0) : ℚ) : ℝ)) :=
  computeScores_shape_values 2 [[(1 : ℚ)], [3]] 1 (by decide) (by decide)

/-- Claim C10 (implicit in the code): the lookback window of the app is
the constant 30.  For every price panel, strategy kind and `top_n`, the
app as written coincides with the parametrized engine instantiated at
window 30 — there is no window at the engine boundary — and under both
strategies the dates the app scores are exactly the return dates from
position 29 on (price dates 30 on), independently of `top_n`. -/
theorem window_constant_thirty (prices : List (List ℚ)) (s : Strategy) (n : Nat) :
    runApp prices s n = pipelineFor s 30 prices n ∧
    portfolioIdx mean 30 prices =
      ((List.range (pct_change prices).length).drop 29).map (fun i => i + 1) ∧
    portfolioIdx lowVolStat 30 prices =
      ((List.range (pct_change prices).length).drop 29).map (fun i => i + 1) := by
  refine ⟨by cases s <;> rfl, ?_, ?_⟩
  · unfold portfolioIdx
    rw [rollingIdx_map_fst]
  · unfold portfolioIdx
    rw [rollingIdx_map_fst]

theorem nlargest_length {β : Type} [LinearOrder β] [Inhabited β] (row : List β) (n : Nat) :
    (nlargest row n).length = min n row.length := by
  unfold nlargest
  rw [List.length_take, List.length_insertionSort, List.length_range]

theorem nlargest_mem {β : Type} [LinearOrder β] [Inhabited β] (row : List β) (n : Nat)
    {j : Nat} (h : j ∈ nlargest row n) : j < row.length := by
  unfold nlargest at h
  have h1 : j ∈ List.insertionSort (nlargestRel row) (List.range row.length) :=
    (List.take_sublist _ _).subset h
  have h2 := (List.perm_insertionSort (nlargestRel row) (List.range row.length)).mem_iff.mp h1
  exact List.mem_range.mp h2

theorem nlargest_nodup {β : Type} [LinearOrder β] [Inhabited β] (row : List β) (n : Nat) :
    (nlargest row n).Nodup := by
  unfold nlargest
  refine List.Nodup.sublist (List.take_sublist _ _) ?_
  exact ((List.perm_insertionSort _ _).nodup_iff).mpr (List.nodup_range _)

theorem nlargest_sorted {β : Type} [LinearOrder β] [Inhabited β] (row : List β) (n : Nat) :
    (nlargest row n).Pairwise (nlargestRel row) := by
  haveI htot : IsTotal Nat (nlargestRel row) := by
    constructor
    intro a b
    by_cases h : row.getD a default = row.getD b default
    · rcases Nat.le_total a b with hab | hba
      · exact Or.inl (Or.inr ⟨h, hab⟩)
      · exact Or.inr (Or.inr ⟨h.symm, hba⟩)
    · rcases lt_or_gt_of_ne h with hlt | hgt
      · exact Or.inr (Or.inl hlt)
      · exact Or.inl (Or.inl hgt)
  haveI htrans : IsTrans Nat (nlargestRel row) := by
    constructor
    intro a b c hab hbc
    rcases hab with h1 | ⟨e1, l1⟩
    · rcases hbc with h2 | ⟨e2, l2⟩
      · exact Or.inl (lt_trans h2 h1)
      · exact Or.inl (by rw [← e2]; exact h1)
    · rcases hbc with h2 | ⟨e2, l2⟩
      · exact Or.inl (by rw [e1]; exact h2)
      · exact Or.inr ⟨e1.trans e2, l1.trans l2⟩
  have hs := List.sorted_insertionSort (nlargestRel row) (List.range row.length)
  unfold nlargest
  exact List.Pairwise.sublist (List.take_sublist _ _) hs

/-- Claim C7: whenever `n` does not exceed the symbol count of the score
row at date `d`, `selectTopN` returns exactly `n` distinct in-range
symbols, pairwise ordered by strictly descending score with equal scores
broken by ascending original symbol position.  Determinism — same
scores, date and `n` give the same selection in the same order — is
immediate here because the embedded `selectTopN` is a pure function. -/
theorem selectTopN_sorted_distinct (scores : List (List ℚ)) (d n : Nat)
    (hn : n ≤ (scores.getD d []).length) :
    (selectTopN scores d n).length = n ∧
    (selectTopN scores d n).Nodup ∧
    (∀ j ∈ selectTopN scores d n, j < (scores.getD d []).length) ∧
    (selectTopN scores d n).Pairwise (fun a b =>
      (scores.getD d []).getD b 0 < (scores.getD d []).getD a 0 ∨
        ((scores.getD d []).getD a 0 = (scores.getD d []).getD b 0 ∧ a < b)) := by
  have hlen : (selectTopN scores d n).length = n := by
    unfold selectTopN
    rw [nlargest_length]
    omega
  have hnd : (selectTopN scores d n).Nodup := nlargest_nodup _ _
  refine ⟨hlen, hnd, fun j hj => nlargest_mem _ _ hj, ?_⟩
  have hp : (selectTopN scores d n).Pairwise (nlargestRel (scores.getD d [])) :=
    nlargest_sorted (scores.getD d []) n
  refine (hp.and hnd).imp ?_
  intro a b hab
  obtain ⟨hr, hne⟩ := hab
  rcases hr with hlt | ⟨heq, hle⟩
  · exact Or.inl hlt
  · exact Or.inr ⟨heq, lt_of_le_of_ne hle hne⟩

/-- Witness for C7 at the score row [3, 5, 5] with n = 2: the selection
is [1, 2], both carrying score 5, the tie broken by original order. -/
theorem selectTopN_sorted_distinct_witness :
    (selectTopN [[(3 : ℚ), 5, 5]] 0 2).length = 2 ∧
    (selectTopN [[(3 : ℚ), 5, 5]] 0 2).Nodup ∧
    (∀ j ∈ selectTopN [[(3 : ℚ), 5, 5]] 0 2, j < ([[(3 : ℚ), 5, 5]].getD 0 []).length) ∧
    (selectTopN [[(3 : ℚ), 5, 5]] 0 2).Pairwise (fun a b =>
      ([[(3 : ℚ), 5, 5]].getD 0 []).getD b 0 < ([[(3 : ℚ), 5, 5]].getD 0 []).getD a 0 ∨
        (([[(3 : ℚ), 5, 5]].getD 0 []).getD a 0 = ([[(3 : ℚ), 5, 5]].getD 0 []).getD b 0 ∧
          a < b)) :=
  selectTopN_sorted_distinct [[(3 : ℚ), 5, 5]] 0 2 (by with_unfolding_all decide)

/-- Claim C2, amended: `selectTopN` never fails.  The source performs no
`ConfigurationError` check: `Series.nlargest` returns the
`min(n, symbol count)` top symbols, so when `n` exceeds the number of
symbols with a score it silently returns all of them, and a selection
(never an error) is produced for every `n`. -/
theorem selectTopN_total_min (scores : List (List ℚ)) (d n : Nat) :
    (selectTopN scores d n).length = min n (scores.getD d []).length ∧
    ∀ j ∈ selectTopN scores d n, j < (scores.getD d []).length :=
  ⟨nlargest_length _ _, fun j hj => nlargest_mem _ _ hj⟩

/-- Counterexample to claim C2 as stated: on a one-symbol score panel
with n = 2 the spec-side operation demands `ConfigurationError`, but the
code-side `selectTopN` returns the full selection [0]; likewise the
whole app run with `top_n = 5` over a single symbol completes and
produces a summary instead of raising. -/
theorem selectTopN_no_configuration_error :
    selectTopNSpec [[(1 : ℚ)]] 0 2 = .error .configuration ∧
    selectTopN [[(1 : ℚ)]] 0 2 = [0] ∧
    runApp constPrices .Momentum 5 = some ([0, 0], [1, 1]) := by
  refine ⟨rfl, ?_, ?_⟩
  · with_unfolding_all decide
  · with_unfolding_all decide

/-- Counterexample to claim C3 as stated: the doubling price panel gives
the identical (zero-variance) portfolio return series [1, 1], on which
the spec-side `summarize` demands `DegenerateSeriesError`; the app run
nevertheless completes, producing the series and (unconditionally) its
metrics. -/
theorem summarize_no_degenerate_error :
    runApp doublingPrices .Momentum 1 = some ([1, 1], [2, 4]) ∧
    sampleVar [1, 1] = 0 ∧
    summarizeSpec [1, 1] [2, 4] = .error .degenerateSeries := by
  have hv : sampleVar [(1 : ℚ), 1] = 0 := by with_unfolding_all decide
  refine ⟨by with_unfolding_all decide, hv, ?_⟩
  unfold summarizeSpec
  rw [if_pos (Or.inl hv)]

/-- Claim C3, amended: `summarize` performs no degeneracy check and
never fails; it always returns `annualizedSharpe = mean/std * sqrt 252`
(a float infinity or NaN in the source when the standard deviation is
zero) and `totalReturn = last(cumulative) - 1`.  In the non-degenerate
case (nonzero variance and at least 2 points) it agrees with the
spec-side operation. -/
theorem summarize_unconditional (rs cs : List ℚ)
    (h : ¬(sampleVar rs = 0 ∨ rs.length < 2)) :
    summarizeSpec rs cs = .ok (summarize rs cs) ∧
    (summarize rs cs).totalReturn = cs.getLastD 0 - 1 ∧
    (summarize rs cs).annualizedSharpe =
      ((mean rs : ℚ) : ℝ) / Real.sqrt ((sampleVar rs : ℚ) : ℝ) * Real.sqrt 252 := by
  refine ⟨?_, rfl, rfl⟩
  unfold summarizeSpec
  rw [if_neg h]

/-- Witness for the amended C3 at the series [1/10, 3/10] (variance
1/50, two points) with cumulative series [11/10, 143/100]. -/
theorem summarize_unconditional_witness :
    summarizeSpec [(1 : ℚ)/10, 3/10] [11/10, 143/100] =
      .ok (summarize [(1 : ℚ)/10, 3/10] [11/10, 143/100]) ∧
    (summarize [(1 : ℚ)/10, 3/10] [11/10, 143/100]).totalReturn =
      [(11 : ℚ)/10, 143/100].getLastD 0 - 1 ∧
    (summarize [(1 : ℚ)/10, 3/10] [11/10, 143/100]).annualizedSharpe =
      ((mean [(1 : ℚ)/10, 3/10] : ℚ) : ℝ) /
        Real.sqrt ((sampleVar [(1 : ℚ)/10, 3/10] : ℚ) : ℝ) * Real.sqrt 252 :=
  summarize_unconditional [(1 : ℚ)/10, 3/10] [(11 : ℚ)/10, 143/100]
    (by with_unfolding_all decide)

theorem pipelineWith_none_short {β : Type} [LinearOrder β] [Inhabited β] (stat : List ℚ → β)
    (w : Nat) (prices : List (List ℚ)) (n : Nat) (h : (pct_change prices).length < w) :
    pipelineWith stat w prices n = none := by
  have hs : rollingIdx stat w (pct_change prices) = [] := by
    unfold rollingIdx
    rw [List.filterMap_eq_nil_iff]
    intro i hi
    have hi' := List.mem_range.mp hi
    rw [if_neg (by omega : ¬ w ≤ i + 1)]
  unfold pipelineWith
  by_cases hp : prices.isEmpty = true
  · rw [if_pos hp]
  · rw [if_neg hp]
    simp [hs]

/-- Claim C4: a price panel with fewer than 2 dates (computeReturns has
nothing to difference), and more generally any run in which no returns
date has a full 30-date lookback window (computeScores drops every
row), makes the app fail: the run is aborted and no performance summary
is produced — `runApp` returns `none` under every strategy.  The
"typed" error of the spec is a presentation detail: the source surfaces
the failure through `st.stop`/its blanket `except` handler. -/
theorem insufficient_data_no_summary (prices : List (List ℚ)) (s : Strategy) (n : Nat) :
    (prices.length < 2 → runApp prices s n = none) ∧
    ((pct_change prices).length < 30 → runApp prices s n = none) := by
  have key : (pct_change prices).length < 30 → runApp prices s n = none := by
    intro h
    cases s
    · exact pipelineWith_none_short mean 30 prices n h
    · exact pipelineWith_none_short lowVolStat 30 prices n h
  refine ⟨?_, key⟩
  intro h2
  apply key
  rw [pct_change_length]
  omega

/-- Witness for C4: a one-date panel under Momentum and a three-date
panel (two return rows, no full 30-window) under LowVolatility both
abort with no summary. -/
theorem insufficient_data_no_summary_witness :
    runApp [[(1 : ℚ)]] .Momentum 1 = none ∧
    runApp [[(1 : ℚ)], [2], [3]] .LowVolatility 2 = none :=
  ⟨(insufficient_data_no_summary [[(1 : ℚ)]] .Momentum 1).1 (by decide),
   (insufficient_data_no_summary [[(1 : ℚ)], [2], [3]] .LowVolatility 2).2
     (by with_unfolding_all decide)⟩

theorem lookup_cumprodPairs (g : Nat → ℚ) :
    ∀ (m s : Nat) (acc : ℚ) (d : Nat), s ≤ d → d < s + m →
      List.lookup d (cumprodPairs acc ((List.range' s m).map fun i => (i, g i))) =
        some (acc * (((List.range' s (d + 1 - s)).map fun i => 1 + g i).prod)) := by
  intro m
  induction m with
  | zero => intro s acc d h1 h2; omega
  | succ m ih =>
    intro s acc d h1 h2
    rw [List.range'_succ, List.map_cons]
    simp only [cumprodPairs]
    by_cases hd : d = s
    · subst hd
      have e : d + 1 - d = 1 := by omega
      rw [e, List.range'_one]
      simp [List.lookup]
    · have hbeq : (d == s) = false := by simpa using hd
      simp only [List.lookup, hbeq]
      rw [ih (s + 1) (acc * (1 + g s)) d (by omega) (by omega)]
      have e1 : d + 1 - s = (d - s) + 1 := by omega
      have e2 : d + 1 - (s + 1) = d - s := by omega
      rw [e2, e1, List.range'_succ, List.map_cons, List.prod_cons, mul_assoc]

theorem getLastD_map_of_ne_nil (f : Nat → ℚ) (idx : List Nat) (h : idx ≠ []) :
    (idx.map f).getLastD 0 = f (idx.getLastD 0) := by
  rw [List.getLastD_eq_getLast?, List.getLastD_eq_getLast?, List.getLast?_map]
  cases hL : idx.getLast? with
  | none =>
    rw [List.getLast?_eq_none_iff] at hL
    exact absurd hL h
  | some y => rfl

/-- Claim C1, amended: the benchmark cumulative series is the running
product of `1 + benchmark return` over the FULL downloaded history, and
only afterwards restricted to the strategy's dates; hence the
benchmark's total return is the full cumulative product up to the LAST
strategy date, minus 1 — it includes every benchmark return before the
first strategy date, rather than being taken only over the strategy's
date index.  (The benchmark Sharpe, line 75, is computed on the
restricted returns, but the cumulative total is not.) -/
theorem benchmark_total_prefix (bench : List ℚ) (idx : List Nat)
    (h0 : idx ≠ []) (h1 : 1 ≤ idx.getLastD 0) (h2 : idx.getLastD 0 < bench.length) :
    benchmark_total bench idx =
      ((List.range' 1 (idx.getLastD 0)).map fun i =>
        1 + (bench.getD i 0 / bench.getD (i - 1) 0 - 1)).prod - 1 := by
  unfold benchmark_total
  rw [getLastD_map_of_ne_nil _ idx h0]
  unfold locD benchCum benchReturns
  rw [lookup_cumprodPairs (fun i => bench.getD i 0 / bench.getD (i - 1) 0 - 1)
    (bench.length - 1) 1 1 (idx.getLastD 0) h1 (by omega)]
  simp only [Option.getD_some, one_mul, Nat.add_sub_cancel]

/-- Witness for the amended C1: benchmark prices [1, 2, 4] with strategy
index [1, 2]; the code's benchmark total is the full product
(1+1)(1+1) - 1 = 3. -/
theorem benchmark_total_prefix_witness :
    benchmark_total [(1 : ℚ), 2, 4] [1, 2] =
      ((List.range' 1 ([1, 2].getLastD 0)).map fun i =>
        1 + ([(1 : ℚ), 2, 4].getD i 0 / [(1 : ℚ), 2, 4].getD (i - 1) 0 - 1)).prod - 1 :=
  benchmark_total_prefix [(1 : ℚ), 2, 4] [1, 2] (by decide) (by decide) (by decide)

/-- Counterexample to claim C1 as stated: constant strategy prices over
32 dates give the portfolio index [30, 31]; against the benchmark that
doubles on its first step and then stays flat, the code computes a
benchmark total of 1 (the pre-restriction cumulative product reaches 2),
while the running product taken only over the dates of the strategy
index gives 0. -/
theorem benchmark_restriction_counterexample :
    portfolioIdx mean 30 constPrices = [30, 31] ∧
    benchmark_total jumpBench (portfolioIdx mean 30 constPrices) = 1 ∧
    benchTotalSpec jumpBench (portfolioIdx mean 30 constPrices) = 0 ∧
    benchmark_total jumpBench (portfolioIdx mean 30 constPrices) ≠
      benchTotalSpec jumpBench (portfolioIdx mean 30 constPrices) := by
  with_unfolding_all decide

end AlphaFactory
